import Mathlib

/-!
# Verification of the CQueue circular queue library

This development embeds the two `circular_queue` implementations shipped by the
repository and proves properties of them:

* `Part000` — the header-only implementation (`library.h` with inline bodies):
  explicit `size` and `capacity` fields, exceptions on invalid capacity /
  empty dequeue / empty peek / out-of-range access / shrinking resize.
* `Part001` — the out-of-line implementation (`library.cpp` implementing the
  declaration-only `library.h`): sentinel `-1` front/rear indices, a `size`
  field that actually stores the capacity, no constructor validation, and
  default-value returns (`T()`) on empty dequeue/peek.

Both are instantiated at `T = int` (the repository explicitly instantiates
`circular_queue<int>`), so elements are modelled as `Int`.  The optional
logging callback is modelled by a `hasLogger` flag on the state plus an
explicit list of emitted event strings returned by each operation; the C++
callback is invoked synchronously once per emitted string and has no effect
on the queue state.
-/

/-- The C++ exception kinds thrown by the library (plus the standard
exception raised by `new T[n]` for negative `n`). -/
inductive CQError where
  | invalidArgument (msg : String)
  | underflowError (msg : String)
  | outOfRange (msg : String)
  | badArrayNewLength
  deriving DecidableEq, Repr

/-- Array read `l[i]` with a C++ `int` index.  At every use site in the
source the index is nonnegative and in bounds; out-of-range reads (undefined
behaviour in C++) are totalised to `0`. -/
def getArr (l : List Int) (i : Int) : Int :=
  l.getD i.toNat 0

/-- Array write `l[i] = v` with a C++ `int` index.  At every use site in the
source the index is nonnegative and in bounds; out-of-range writes (undefined
behaviour in C++) are totalised to a no-op. -/
def setArr (l : List Int) (i : Int) (v : Int) : List Int :=
  l.set i.toNat v

/-- C++ `%` on `int`: truncated-toward-zero remainder.  (`x % 0` is undefined
behaviour in C++; `Int.tmod x 0 = x` totalises it.) -/
def cppMod (a b : Int) : Int :=
  a.tmod b

namespace Part000

/-- State of the header-only `circular_queue<int>` (src/unnamed/part_000):
`std::unique_ptr<T[]> arr; int front, rear, size, capacity;` plus whether the
optional logging callback is non-null. -/
structure circular_queue where
  arr : List Int
  front : Int
  rear : Int
  size : Int
  capacity : Int
  hasLogger : Bool
  deriving DecidableEq, Repr

/-- Constructor: `front(-1), rear(-1), capacity(n)`; throws
`std::invalid_argument` if `n <= 0`, otherwise allocates
`make_unique<T[]>(n)` (value-initialised, i.e. zeroed). -/
def mk (n : Int) (hasLogger : Bool) : Except CQError circular_queue :=
  if n ≤ 0 then
    .error (.invalidArgument "Queue capacity must be greater than 0.")
  else
    .ok { arr := List.replicate n.toNat 0, front := -1, rear := -1,
          size := 0, capacity := n, hasLogger := hasLogger }

/-- `is_full`: `size == capacity`. -/
def is_full (q : circular_queue) : Bool :=
  q.size == q.capacity

/-- `is_empty`: `size == 0`. -/
def is_empty (q : circular_queue) : Bool :=
  q.size == 0

/-- `enqueue(value)`: if full, advance `front` by one mod `capacity` and
decrement `size`; then either initialise `front = rear = 0` (if now empty) or
advance `rear`; write the value at `rear`, increment `size`, and log once if
a logger is installed.  Never throws. -/
def enqueue (q : circular_queue) (value : Int) : circular_queue × List String :=
  let q1 := if is_full q then
      { q with front := cppMod (q.front + 1) q.capacity, size := q.size - 1 }
    else q
  let q2 := if is_empty q1 then
      { q1 with front := 0, rear := 0 }
    else
      { q1 with rear := cppMod (q1.rear + 1) q1.capacity }
  let q3 := { q2 with arr := setArr q2.arr q2.rear value, size := q2.size + 1 }
  (q3, if q3.hasLogger then ["Enqueued: " ++ toString value] else [])

/-- `dequeue()`: throws `std::underflow_error` if empty; otherwise reads
`arr[front]`, resets `front = rear = -1` when the last element leaves (or
advances `front`), decrements `size`, logs once, returns the value. -/
def dequeue (q : circular_queue) :
    Except CQError (Int × circular_queue × List String) :=
  if is_empty q then
    .error (.underflowError "Queue is empty")
  else
    let value := getArr q.arr q.front
    let q1 := if q.front == q.rear then
        { q with front := -1, rear := -1 }
      else
        { q with front := cppMod (q.front + 1) q.capacity }
    let q2 := { q1 with size := q1.size - 1 }
    .ok (value, q2, if q2.hasLogger then ["Dequeued: " ++ toString value] else [])

/-- `peek()`: throws `std::underflow_error` if empty; otherwise returns
`arr[front]`.  The function is `const` and contains no logger call, which the
embedding mirrors: it takes the state and returns only a value, so no state
change and no notification can occur. -/
def peek (q : circular_queue) : Except CQError Int :=
  if is_empty q then
    .error (.underflowError "Queue is empty")
  else
    .ok (getArr q.arr q.front)

/-- `clear()`: reset `front = rear = -1`, `size = 0`, log once. -/
def clear (q : circular_queue) : circular_queue × List String :=
  ({ q with front := -1, rear := -1, size := 0 },
   if q.hasLogger then ["Queue cleared"] else [])

/-- `get_all_elements()`: the vector `[arr[(front + i) % capacity] | i < size]`,
built by value (`push_back` copies), hence an independent copy of the
occupied slots, oldest to newest.  `const`, no logger call. -/
def get_all_elements (q : circular_queue) : List Int :=
  (List.range q.size.toNat).map
    (fun (i : Nat) => getArr q.arr (cppMod (q.front + (i : Int)) q.capacity))

/-- `get_element_at(index)`: throws `std::out_of_range` unless
`0 <= index < size`; otherwise returns `arr[(front + index) % capacity]`.
`const`, no logger call. -/
def get_element_at (q : circular_queue) (index : Int) : Except CQError Int :=
  if index < 0 ∨ index ≥ q.size then
    .error (.outOfRange "Index out of range")
  else
    .ok (getArr q.arr (cppMod (q.front + index) q.capacity))

/-- `resize(new_capacity)`: throws `std::invalid_argument` if
`new_capacity < size` (this is the only check in the source); otherwise
allocates a zero-initialised array of `new_capacity` slots, copies the
logical sequence to positions `0 .. size-1`, sets `front = 0`,
`rear = size - 1`, `capacity = new_capacity`, logs once. -/
def resize (q : circular_queue) (new_capacity : Int) :
    Except CQError (circular_queue × List String) :=
  if new_capacity < q.size then
    .error (.invalidArgument "New capacity cannot be less than the current size")
  else
    let copied := (List.range q.size.toNat).map
      (fun (i : Nat) => getArr q.arr (cppMod (q.front + (i : Int)) q.capacity))
    let new_arr := copied ++ List.replicate (new_capacity.toNat - q.size.toNat) 0
    let q1 := { q with arr := new_arr, capacity := new_capacity, front := 0, rear := q.size - 1 }
    .ok (q1, if q.hasLogger then
           ["Queue resized to capacity: " ++ toString new_capacity] else [])

/-- `get_size()`: returns `size`. -/
def get_size (q : circular_queue) : Int :=
  q.size

/-- `get_capacity()`: returns `capacity`. -/
def get_capacity (q : circular_queue) : Int :=
  q.capacity

end Part000

namespace Part001

/-- State of the out-of-line `circular_queue<int>` (src/unnamed/part_001):
`T* arr; int front, rear, size;` — in this variant the field named `size`
holds the fixed capacity (`size(n)` in the constructor init list) and
emptiness is tracked solely by the `-1` sentinel in `front`. -/
structure circular_queue where
  arr : List Int
  front : Int
  rear : Int
  size : Int
  hasLogger : Bool
  deriving DecidableEq, Repr

/-- Constructor: `front(-1), rear(-1), size(n)`, then `arr = new T[size]`.
There is no validation: any `n >= 0` is accepted (for `n < 0`,
`new T[n]` throws `std::bad_array_new_length`).  `new T[n]` leaves the `int`
elements uninitialised; they are modelled as zeros, which is sound because no
reachable read inspects a slot before it is written. -/
def mk (n : Int) (hasLogger : Bool) : Except CQError circular_queue :=
  if n < 0 then
    .error .badArrayNewLength
  else
    .ok { arr := List.replicate n.toNat 0, front := -1, rear := -1,
          size := n, hasLogger := hasLogger }

/-- `is_full`: `(rear + 1) % size == front` (recall `size` is the capacity
here). -/
def is_full (q : circular_queue) : Bool :=
  cppMod (q.rear + 1) q.size == q.front

/-- `is_empty`: `front == -1`. -/
def is_empty (q : circular_queue) : Bool :=
  q.front == -1

/-- `dequeue()`: if empty, logs an error message and returns a
default-constructed `T` (`0` for `int`) with the state unchanged; otherwise
reads `arr[front]`, resets both sentinels when `front == rear` (or advances
`front`), logs, and returns the value.  Never throws. -/
def dequeue (q : circular_queue) : Int × circular_queue × List String :=
  if is_empty q then
    (0, q, if q.hasLogger then ["Queue is empty! Cannot dequeue."] else [])
  else
    let value := getArr q.arr q.front
    let q1 := if q.front == q.rear then
        { q with front := -1, rear := -1 }
      else
        { q with front := cppMod (q.front + 1) q.size }
    (value, q1, if q1.hasLogger then ["Dequeued: " ++ toString value] else [])

/-- `enqueue(value)`: if full, first calls `dequeue()` (which emits its own
"Dequeued" event); then initialises `front = 0` if the queue was empty,
advances `rear` with wrap-around, writes the value, and logs. -/
def enqueue (q : circular_queue) (value : Int) : circular_queue × List String :=
  let step1 : circular_queue × List String :=
    if is_full q then
      let r := dequeue q
      (r.2.1, r.2.2)
    else (q, [])
  let q1 := step1.1
  let q2 := if q1.front == -1 then { q1 with front := 0 } else q1
  let q3 := { q2 with rear := cppMod (q2.rear + 1) q2.size }
  let q4 := { q3 with arr := setArr q3.arr q3.rear value }
  (q4, step1.2 ++ (if q4.hasLogger then ["Enqueued: " ++ toString value] else []))

/-- `peek()`: if empty, logs an error message and returns a
default-constructed `T` (`0` for `int`); otherwise logs a "Peeked at" event
and returns `arr[front]` with the state unchanged.  Note that this variant
notifies the observer on a read-only call. -/
def peek (q : circular_queue) : Int × List String :=
  if is_empty q then
    (0, if q.hasLogger then ["Queue is empty! No front element."] else [])
  else
    (getArr q.arr q.front,
     if q.hasLogger then ["Peeked at: " ++ toString (getArr q.arr q.front)] else [])

/-- `clear()`: reset `front = rear = -1`, log once. -/
def clear (q : circular_queue) : circular_queue × List String :=
  ({ q with front := -1, rear := -1 },
   if q.hasLogger then ["Queue cleared."] else [])

end Part001

/-! ## Arithmetic and array helper lemmas -/

theorem cppMod_eq_emod {a b : Int} (ha : 0 ≤ a) (hb : 0 ≤ b) : cppMod a b = a % b :=
  Int.tmod_eq_emod ha hb

theorem emod_ite (a c : Int) (h0 : 0 ≤ a) (h2 : a < 2 * c) :
    a % c = if a < c then a else a - c := by
  split
  next h => exact Int.emod_eq_of_lt h0 h
  next h =>
    have h1 : (a - c) % c = a % c := by simp [Int.sub_emod]
    rw [← h1]
    exact Int.emod_eq_of_lt (by omega) (by omega)

theorem emod_shift_inj {c f i j : Int} (hf0 : 0 ≤ f) (hfc : f < c)
    (hi0 : 0 ≤ i) (hic : i < c) (hj0 : 0 ≤ j) (hjc : j < c)
    (h : (f + i) % c = (f + j) % c) : i = j := by
  rw [emod_ite (f + i) c (by omega) (by omega),
      emod_ite (f + j) c (by omega) (by omega)] at h
  split at h <;> split at h <;> omega

theorem emod_add_one (c a : Int) :
    (a % c + 1) % c = (a + 1) % c := by
  rw [Int.add_emod (a % c) 1, Int.emod_emod_of_dvd a dvd_rfl, ← Int.add_emod]

theorem length_setArr (l : List Int) (i : Int) (v : Int) :
    (setArr l i v).length = l.length := by
  simp [setArr]

theorem getArr_setArr_self {l : List Int} {i : Int} (v : Int)
    (h : i.toNat < l.length) : getArr (setArr l i v) i = v := by
  simp [getArr, setArr, List.getD_eq_getElem?_getD, List.getElem?_set_self, h]

theorem getArr_setArr_ne {l : List Int} {i j : Int} (v : Int)
    (hij : i.toNat ≠ j.toNat) : getArr (setArr l j v) i = getArr l i := by
  simp [getArr, setArr, List.getD_eq_getElem?_getD,
        List.getElem?_set_ne (by omega : j.toNat ≠ i.toNat)]

namespace Part000

/-! ## State invariant of the header implementation -/

/-- Invariant of every reachable state of the header queue (except for the
capacity-0 state producible by the `resize` defect, which only claim C10's
weaker `Inv10` covers): the element count is in range, the backing array has
exactly `capacity` slots, and on a non-empty state `front` is a valid index
and `rear` is `front + size - 1` modulo `capacity`.  Nothing is required of
`front`/`rear` on an empty state: the code never reads them there before
rewriting them (`resize` legitimately leaves `front = 0`, `rear = -1` on an
empty queue). -/
def Inv (q : circular_queue) : Prop :=
  1 ≤ q.capacity ∧
  0 ≤ q.size ∧ q.size ≤ q.capacity ∧
  q.arr.length = q.capacity.toNat ∧
  (q.size ≠ 0 → 0 ≤ q.front ∧ q.front < q.capacity ∧
     q.rear = cppMod (q.front + q.size - 1) q.capacity)

instance (q : circular_queue) : Decidable (Inv q) := by
  unfold Inv
  infer_instance

/-- First phase of `enqueue` (lines 76-80 of the source): on a full queue,
advance `front` and decrement `size`; otherwise do nothing. -/
def evict (q : circular_queue) : circular_queue :=
  if is_full q then
    { q with front := cppMod (q.front + 1) q.capacity, size := q.size - 1 }
  else q

/-- Second phase of `enqueue` (lines 82-89 of the source): pick the insertion
slot, write the value, increment `size`. -/
def insertTail (q : circular_queue) (v : Int) : circular_queue :=
  let q2 := if is_empty q then
      { q with front := 0, rear := 0 }
    else
      { q with rear := cppMod (q.rear + 1) q.capacity }
  { q2 with arr := setArr q2.arr q2.rear v, size := q2.size + 1 }

/-- The state produced by `enqueue` is exactly the two phases composed
(definitional equality). -/
theorem enqueue_decomp (q : circular_queue) (v : Int) :
    (enqueue q v).1 = insertTail (evict q) v := rfl

end Part000

theorem cppMod_zero_left (b : Int) : cppMod 0 b = 0 :=
  Int.zero_tmod b

theorem emod_add_left (c a b : Int) : (a % c + b) % c = (a + b) % c := by
  rw [Int.add_emod (a % c) b, Int.emod_emod_of_dvd a dvd_rfl, ← Int.add_emod]

theorem emod_sub_left (c a b : Int) : (a % c - b) % c = (a - b) % c := by
  rw [Int.sub_emod (a % c) b, Int.emod_emod_of_dvd a dvd_rfl, ← Int.sub_emod]

namespace Part000

/-- Weakened invariant holding between the two phases of `enqueue`: the state
has strictly fewer elements than slots, and when non-empty the index fields
are coherent.  (After the eviction phase on a capacity-1 queue the `-1`
sentinels do not hold, so nothing is required of `front`/`rear` on an empty
mid-state.) -/
def InvMid (q : circular_queue) : Prop :=
  1 ≤ q.capacity ∧
  0 ≤ q.size ∧ q.size < q.capacity ∧
  q.arr.length = q.capacity.toNat ∧
  (q.size ≠ 0 → 0 ≤ q.front ∧ q.front < q.capacity ∧
     q.rear = cppMod (q.front + q.size - 1) q.capacity)

theorem get_all_elements_emod (q : circular_queue) (hf : 0 ≤ q.front)
    (hc : 0 ≤ q.capacity) :
    get_all_elements q =
      (List.range q.size.toNat).map
        (fun (i : Nat) => getArr q.arr ((q.front + (i : Int)) % q.capacity)) := by
  unfold get_all_elements
  refine List.map_congr_left ?_
  intro i _
  rw [cppMod_eq_emod (by have := Int.natCast_nonneg i; omega) hc]

theorem insertTail_spec (q : circular_queue) (v : Int) (h : InvMid q) :
    Inv (insertTail q v) ∧
    (insertTail q v).capacity = q.capacity ∧
    (insertTail q v).hasLogger = q.hasLogger ∧
    (insertTail q v).size = q.size + 1 ∧
    get_all_elements (insertTail q v) = get_all_elements q ++ [v] := by
  obtain ⟨hc, hs0, hsc, hlen, hne⟩ := h
  by_cases hz : q.size = 0
  · have hemp : is_empty q = true := by simp [is_empty, hz]
    have hred : insertTail q v =
        { q with front := 0, rear := 0, arr := setArr q.arr 0 v, size := q.size + 1 } := by
      unfold insertTail
      rw [hemp]
      rfl
    rw [hred]
    unfold Inv
    dsimp only
    refine ⟨⟨hc, by omega, by omega, by simp [length_setArr, hlen], ?_⟩, rfl, rfl, rfl, ?_⟩
    · intro _
      refine ⟨le_refl 0, hc, ?_⟩
      rw [hz]
      norm_num
      rw [cppMod_zero_left]
    · rw [show get_all_elements q = [] from by simp [get_all_elements, hz]]
      unfold get_all_elements
      dsimp only
      rw [hz]
      norm_num
      rw [show List.range 1 = [0] from rfl]
      simp only [List.map_cons, List.map_nil, Nat.cast_zero, cppMod_zero_left]
      rw [getArr_setArr_self v (by simp only [Int.toNat_zero]; rw [hlen]; omega)]
  · obtain ⟨hf0, hfc, hrear⟩ := hne hz
    have hcpos : (0:Int) < q.capacity := hc
    have hrear' : q.rear = (q.front + q.size - 1) % q.capacity := by
      rw [hrear, cppMod_eq_emod (by omega) (by omega)]
    have hrear0 : 0 ≤ q.rear := by
      rw [hrear']
      exact Int.emod_nonneg _ (by omega)
    have hemp : is_empty q = false := by simp [is_empty, hz]
    have hnewrear : cppMod (q.rear + 1) q.capacity = (q.front + q.size) % q.capacity := by
      rw [cppMod_eq_emod (by omega) (by omega), hrear', emod_add_left]
      norm_num
    have hred : insertTail q v =
        { q with rear := (q.front + q.size) % q.capacity,
                 arr := setArr q.arr ((q.front + q.size) % q.capacity) v,
                 size := q.size + 1 } := by
      unfold insertTail
      rw [hemp]
      simp only [Bool.false_eq_true, if_false]
      rw [hnewrear]
    have hw0 : 0 ≤ (q.front + q.size) % q.capacity := Int.emod_nonneg _ (by omega)
    have hwc : (q.front + q.size) % q.capacity < q.capacity := Int.emod_lt_of_pos _ hcpos
    rw [hred]
    unfold Inv
    dsimp only
    refine ⟨⟨hc, by omega, by omega, by simp [length_setArr, hlen], ?_⟩, rfl, rfl, rfl, ?_⟩
    · intro _
      refine ⟨hf0, hfc, ?_⟩
      rw [cppMod_eq_emod (by omega) (by omega)]
      rw [show q.front + (q.size + 1) - 1 = q.front + q.size from by ring]
    · rw [get_all_elements_emod q hf0 (by omega)]
      have hq' : get_all_elements
          { q with rear := (q.front + q.size) % q.capacity,
                   arr := setArr q.arr ((q.front + q.size) % q.capacity) v,
                   size := q.size + 1 } =
          (List.range (q.size + 1).toNat).map
            (fun (i : Nat) => getArr (setArr q.arr ((q.front + q.size) % q.capacity) v)
              ((q.front + (i : Int)) % q.capacity)) := by
        rw [get_all_elements_emod _ (by dsimp only; exact hf0) (by dsimp only; omega)]
      rw [hq']
      have hsz : (q.size + 1).toNat = q.size.toNat + 1 := by omega
      rw [hsz, List.range_succ, List.map_append, List.map_singleton]
      congr 1
      · refine List.map_congr_left ?_
        intro i hi
        have hilt : (i : Int) < q.size := by
          simp only [List.mem_range] at hi
          omega
        have hi0 : (0:Int) ≤ (i : Int) := Int.natCast_nonneg i
        refine getArr_setArr_ne v ?_
        have h1 : 0 ≤ (q.front + (i : Int)) % q.capacity := Int.emod_nonneg _ (by omega)
        have h2 : (q.front + (i : Int)) % q.capacity < q.capacity :=
          Int.emod_lt_of_pos _ hcpos
        intro hEq
        have hEq' : (q.front + (i : Int)) % q.capacity =
            (q.front + q.size) % q.capacity := by omega
        have := emod_shift_inj hf0 hfc hi0 (by omega) (by omega) (by omega) hEq'
        omega
      · rw [Int.toNat_of_nonneg hs0]
        rw [getArr_setArr_self v (by rw [hlen]; omega)]

theorem evict_spec (q : circular_queue) (h : Inv q) (hfull : q.size = q.capacity) :
    InvMid (evict q) ∧
    (evict q).capacity = q.capacity ∧
    (evict q).hasLogger = q.hasLogger ∧
    (evict q).size = q.size - 1 ∧
    get_all_elements (evict q) = (get_all_elements q).drop 1 := by
  obtain ⟨hc, hs0, hsc, hlen, hne⟩ := h
  have hz : q.size ≠ 0 := by omega
  obtain ⟨hf0, hfc, hrear⟩ := hne hz
  have hcpos : (0:Int) < q.capacity := hc
  have hfullb : is_full q = true := by simp [is_full, hfull]
  have hfm : cppMod (q.front + 1) q.capacity = (q.front + 1) % q.capacity :=
    cppMod_eq_emod (by omega) (by omega)
  have hred : evict q =
      { q with front := (q.front + 1) % q.capacity, size := q.size - 1 } := by
    unfold evict
    rw [hfullb, hfm]
    rfl
  have h1 : 0 ≤ (q.front + 1) % q.capacity := Int.emod_nonneg _ (by omega)
  have h2 : (q.front + 1) % q.capacity < q.capacity := Int.emod_lt_of_pos _ hcpos
  rw [hred]
  unfold InvMid
  dsimp only
  refine ⟨⟨hc, by omega, by omega, by omega, ?_⟩, rfl, rfl, rfl, ?_⟩
  · intro hz'
    refine ⟨h1, h2, ?_⟩
    rw [hrear, cppMod_eq_emod (by omega) (by omega),
        cppMod_eq_emod (by omega) (by omega),
        show (q.front + 1) % q.capacity + (q.size - 1) - 1 =
          (q.front + 1) % q.capacity + (q.size - 2) from by ring,
        emod_add_left,
        show q.front + 1 + (q.size - 2) = q.front + q.size - 1 from by ring]
  · rw [get_all_elements_emod _ (by dsimp only; exact h1) (by dsimp only; omega),
        get_all_elements_emod q hf0 (by omega)]
    dsimp only
    have hsz : q.size.toNat = (q.size - 1).toNat + 1 := by omega
    rw [hsz, List.range_succ_eq_map, List.map_cons, List.drop_succ_cons,
        List.drop_zero, List.map_map]
    refine List.map_congr_left ?_
    intro i _
    dsimp only [Function.comp]
    rw [emod_add_left]
    congr 1
    push_cast
    ring_nf


theorem get_all_elements_length (q : circular_queue) :
    (get_all_elements q).length = q.size.toNat := by
  simp [get_all_elements]

theorem enqueue_spec (q : circular_queue) (v : Int) (h : Inv q) :
    Inv (enqueue q v).1 ∧
    (enqueue q v).1.capacity = q.capacity ∧
    (enqueue q v).1.hasLogger = q.hasLogger ∧
    (enqueue q v).1.size = (if q.size = q.capacity then q.capacity else q.size + 1) ∧
    get_all_elements (enqueue q v).1 =
      (if q.size = q.capacity then (get_all_elements q).drop 1
       else get_all_elements q) ++ [v] := by
  rw [enqueue_decomp]
  by_cases hfull : q.size = q.capacity
  · obtain ⟨m1, m2, m3, m4, m5⟩ := evict_spec q h hfull
    obtain ⟨g1, g2, g3, g4, g5⟩ := insertTail_spec _ v m1
    rw [if_pos hfull, if_pos hfull]
    exact ⟨g1, by rw [g2, m2], by rw [g3, m3], by rw [g4, m4]; omega,
           by rw [g5, m5]⟩
  · have hmid : InvMid q := by
      obtain ⟨hc, hs0, hsc, hlen, hne⟩ := h
      exact ⟨hc, hs0, by omega, hlen, hne⟩
    have hev : evict q = q := by
      unfold evict
      rw [show is_full q = false from by simp [is_full, hfull]]
      rfl
    rw [hev, if_neg hfull, if_neg hfull]
    exact insertTail_spec q v hmid

theorem advance_front_snapshot (q : circular_queue) (hcpos : (0:Int) < q.capacity)
    (hf0 : 0 ≤ q.front) (hs1 : 1 ≤ q.size) :
    get_all_elements { q with front := (q.front + 1) % q.capacity, size := q.size - 1 } =
      (get_all_elements q).drop 1 := by
  rw [get_all_elements_emod _ (by dsimp only; exact Int.emod_nonneg _ (by omega))
        (by dsimp only; omega),
      get_all_elements_emod q hf0 (by omega)]
  dsimp only
  have hsz : q.size.toNat = (q.size - 1).toNat + 1 := by omega
  rw [hsz, List.range_succ_eq_map, List.map_cons, List.drop_succ_cons,
      List.drop_zero, List.map_map]
  refine List.map_congr_left ?_
  intro i _
  dsimp only [Function.comp]
  rw [emod_add_left]
  congr 1
  push_cast
  ring_nf

theorem dequeue_spec (q : circular_queue) (h : Inv q) (hz : q.size ≠ 0) :
    ∃ q', dequeue q = .ok (getArr q.arr q.front, q',
        if q.hasLogger then ["Dequeued: " ++ toString (getArr q.arr q.front)] else []) ∧
      Inv q' ∧ q'.capacity = q.capacity ∧ q'.hasLogger = q.hasLogger ∧
      q'.size = q.size - 1 ∧
      get_all_elements q' = (get_all_elements q).drop 1 := by
  obtain ⟨hc, hs0, hsc, hlen, hne⟩ := h
  obtain ⟨hf0, hfc, hrear⟩ := hne hz
  have hcpos : (0:Int) < q.capacity := hc
  have hemp : is_empty q = false := by simp [is_empty, hz]
  by_cases hs1 : q.size = 1
  · have hfr : (q.front == q.rear) = true := by
      simp only [beq_iff_eq]
      rw [hrear, hs1, show q.front + 1 - 1 = q.front from by ring,
          cppMod_eq_emod hf0 (by omega), Int.emod_eq_of_lt hf0 hfc]
    refine ⟨{ q with front := -1, rear := -1, size := q.size - 1 },
      by unfold dequeue; rw [hemp, hfr]; rfl, ?_, rfl, rfl, rfl, ?_⟩
    · exact ⟨hc, by dsimp only; omega, by dsimp only; omega, hlen,
        fun h' => absurd (by dsimp only at h' ⊢; omega) h'⟩
    · rw [show get_all_elements
            { q with front := -1, rear := -1, size := q.size - 1 } = []
          from by simp [get_all_elements, hs1]]
      exact (List.drop_eq_nil_of_le (by rw [get_all_elements_length]; omega)).symm
  · have hfr : (q.front == q.rear) = false := by
      simp only [beq_eq_false_iff_ne]
      intro hEq
      have hshift : (q.front + 0) % q.capacity = (q.front + (q.size - 1)) % q.capacity := by
        have e1 : (q.front + 0) % q.capacity = q.front := by
          rw [add_zero]
          exact Int.emod_eq_of_lt hf0 hfc
        have e2 : (q.front + (q.size - 1)) % q.capacity = q.rear := by
          rw [hrear, cppMod_eq_emod (by omega) (by omega)]
          congr 1
          ring
        rw [e1, e2, hEq]
      have := emod_shift_inj hf0 hfc le_rfl (by omega) (by omega) (by omega) hshift
      omega
    have hfm : cppMod (q.front + 1) q.capacity = (q.front + 1) % q.capacity :=
      cppMod_eq_emod (by omega) (by omega)
    have hnf0 : 0 ≤ (q.front + 1) % q.capacity := Int.emod_nonneg _ (by omega)
    have hnfc : (q.front + 1) % q.capacity < q.capacity := Int.emod_lt_of_pos _ hcpos
    refine ⟨{ q with front := cppMod (q.front + 1) q.capacity, size := q.size - 1 },
      by unfold dequeue; rw [hemp, hfr]; rfl, ?_, rfl, rfl, rfl, ?_⟩
    · rw [hfm]
      refine ⟨hc, by dsimp only; omega, by dsimp only; omega, hlen, ?_⟩
      intro _
      dsimp only
      refine ⟨hnf0, hnfc, ?_⟩
      rw [hrear, cppMod_eq_emod (by omega) (by omega),
          cppMod_eq_emod (by omega) (by omega),
          show (q.front + 1) % q.capacity + (q.size - 1) - 1 =
            (q.front + 1) % q.capacity + (q.size - 2) from by ring,
          emod_add_left,
          show q.front + 1 + (q.size - 2) = q.front + q.size - 1 from by ring]
    · rw [hfm]
      exact advance_front_snapshot q hcpos hf0 (by omega)

theorem mk_spec (n : Int) (L : Bool) (q : circular_queue) (h : mk n L = .ok q) :
    1 ≤ n ∧ q.capacity = n ∧ q.size = 0 ∧ q.hasLogger = L ∧ Inv q ∧
    get_all_elements q = [] := by
  unfold mk at h
  split at h
  · exact absurd h (by simp)
  · next hn =>
    simp only [Except.ok.injEq] at h
    subst h
    refine ⟨by omega, rfl, rfl, rfl, ⟨by dsimp only; omega, by dsimp only; omega,
      by dsimp only; omega, by dsimp only; simp, fun h' => absurd rfl h'⟩,
      by simp [get_all_elements]⟩


/-- Fold a list of values through `enqueue`, oldest first. -/
def enqueueAll (q : circular_queue) (vs : List Int) : circular_queue :=
  vs.foldl (fun q v => (enqueue q v).1) q

theorem enqueueAll_spec (vs : List Int) (q : circular_queue) (h : Inv q)
    (hroom : q.size + vs.length ≤ q.capacity) :
    Inv (enqueueAll q vs) ∧
    (enqueueAll q vs).capacity = q.capacity ∧
    (enqueueAll q vs).size = q.size + vs.length ∧
    get_all_elements (enqueueAll q vs) = get_all_elements q ++ vs := by
  induction vs generalizing q with
  | nil =>
    exact ⟨h, rfl, by simp [enqueueAll], by simp [enqueueAll]⟩
  | cons v vs ih =>
    have hlc : ((v :: vs : List Int)).length = vs.length + 1 := by simp
    have hnotfull : q.size ≠ q.capacity := by
      rw [hlc] at hroom
      omega
    obtain ⟨g1, g2, g3, g4, g5⟩ := enqueue_spec q v h
    rw [if_neg hnotfull] at g4 g5
    have step1 : enqueueAll q (v :: vs) = enqueueAll (enqueue q v).1 vs := rfl
    rw [step1]
    obtain ⟨r1, r2, r3, r4⟩ := ih (enqueue q v).1 g1
      (by rw [g4, g2]; rw [hlc] at hroom; omega)
    refine ⟨r1, by rw [r2, g2], by rw [r3, g4, hlc]; omega, ?_⟩
    rw [r4, g5, List.append_assoc]
    simp

end Part000

/-- The operations a caller can perform on the header queue (the mutators
plus the read-only calls, which are `const` in the source and therefore
leave the state unchanged). -/
inductive Op where
  | enq (v : Int)
  | deq
  | clr
  | rsz (k : Int)
  | pk
  | elemAt (i : Int)
  | snap
  deriving DecidableEq, Repr

namespace Part000

/-- One operation applied to the state.  A call that throws leaves the queue
unchanged (each method's throw happens before any field is written), and the
read-only members (`peek`, `get_element_at`, `get_all_elements`, and the
predicates/getters, all `const` in the source) cannot change the state. -/
def step (q : circular_queue) : Op → circular_queue
  | .enq v => (enqueue q v).1
  | .deq =>
    match dequeue q with
    | .ok r => r.2.1
    | .error _ => q
  | .clr => (clear q).1
  | .rsz k =>
    match resize q k with
    | .ok r => r.1
    | .error _ => q
  | .pk => q
  | .elemAt _ => q
  | .snap => q

/-- A sequence of operations applied in order. -/
def run (q : circular_queue) (ops : List Op) : circular_queue :=
  ops.foldl step q

/-- The count invariant of claim C10: `0 <= count <= capacity`.  (Weaker than
`Inv`: it survives even the degenerate capacity-0 state that the `resize`
defect of claim C4 can produce.) -/
def Inv10 (q : circular_queue) : Prop :=
  0 ≤ q.size ∧ q.size ≤ q.capacity

theorem step_Inv10 (q : circular_queue) (op : Op) (h : Inv10 q) :
    Inv10 (step q op) := by
  obtain ⟨h0, h1⟩ := h
  cases op with
  | enq v =>
    show Inv10 (enqueue q v).1
    unfold enqueue
    dsimp only
    split
    next hfull =>
      simp only [is_full, beq_iff_eq] at hfull
      split
      next hemp =>
        simp only [is_empty, beq_iff_eq] at hemp
        exact ⟨by dsimp only; omega, by dsimp only; omega⟩
      next hemp =>
        exact ⟨by dsimp only; omega, by dsimp only; omega⟩
    next hfull =>
      simp only [is_full, beq_iff_eq] at hfull
      split
      next hemp =>
        simp only [is_empty, beq_iff_eq] at hemp
        exact ⟨by dsimp only; omega, by dsimp only; omega⟩
      next hemp =>
        exact ⟨by dsimp only; omega, by dsimp only; omega⟩
  | deq =>
    show Inv10 (match dequeue q with | .ok r => r.2.1 | .error _ => q)
    by_cases hemp : q.size = 0
    · rw [show dequeue q = .error (.underflowError "Queue is empty") from by
        unfold dequeue
        rw [show is_empty q = true from by simp [is_empty, hemp]]
        rfl]
      exact ⟨h0, h1⟩
    · have hival : is_empty q = false := by simp [is_empty, hemp]
      by_cases hfr : q.front = q.rear
      · rw [show dequeue q = .ok (getArr q.arr q.front,
            { q with front := -1, rear := -1, size := q.size - 1 },
            if q.hasLogger then ["Dequeued: " ++ toString (getArr q.arr q.front)]
            else []) from by
          unfold dequeue
          rw [hival, show (q.front == q.rear) = true from by simp [hfr]]
          rfl]
        exact ⟨by dsimp only; omega, by dsimp only; omega⟩
      · rw [show dequeue q = .ok (getArr q.arr q.front,
            { q with front := cppMod (q.front + 1) q.capacity, size := q.size - 1 },
            if q.hasLogger then ["Dequeued: " ++ toString (getArr q.arr q.front)]
            else []) from by
          unfold dequeue
          rw [hival, show (q.front == q.rear) = false from by simp [hfr]]
          rfl]
        exact ⟨by dsimp only; omega, by dsimp only; omega⟩
  | clr =>
    exact ⟨le_refl 0, by dsimp only [step, clear]; omega⟩
  | rsz k =>
    show Inv10 (match resize q k with | .ok r => r.1 | .error _ => q)
    by_cases hlt : k < q.size
    · rw [show resize q k =
          .error (.invalidArgument "New capacity cannot be less than the current size")
        from by
          unfold resize
          rw [if_pos hlt]]
      exact ⟨h0, h1⟩
    · rw [show resize q k = .ok ({ q with
            arr := ((List.range q.size.toNat).map
              (fun (i : Nat) => getArr q.arr (cppMod (q.front + (i : Int)) q.capacity)))
              ++ List.replicate (k.toNat - q.size.toNat) 0,
            capacity := k, front := 0, rear := q.size - 1 },
          if q.hasLogger then ["Queue resized to capacity: " ++ toString k] else [])
        from by
          unfold resize
          rw [if_neg hlt]]
      exact ⟨by dsimp only; omega, by dsimp only; omega⟩

  | pk => exact ⟨h0, h1⟩
  | elemAt i => exact ⟨h0, h1⟩
  | snap => exact ⟨h0, h1⟩

theorem run_Inv10 (q : circular_queue) (ops : List Op) (h : Inv10 q) :
    Inv10 (run q ops) := by
  induction ops generalizing q with
  | nil => exact h
  | cons op ops ih => exact ih _ (step_Inv10 q op h)


end Part000

namespace Part000

theorem enqueue_eq_empty (q : circular_queue) (v : Int)
    (hnf : is_full q = false) (hz : is_empty q = true) :
    (enqueue q v).1 =
      { q with front := 0, rear := 0, arr := setArr q.arr 0 v, size := q.size + 1 } := by
  rw [enqueue_decomp, show evict q = q from by unfold evict; rw [hnf]; rfl]
  unfold insertTail
  rw [hz]
  rfl

theorem enqueue_eq_mid (q : circular_queue) (v : Int)
    (hnf : is_full q = false) (hz : is_empty q = false) :
    (enqueue q v).1 =
      { q with rear := cppMod (q.rear + 1) q.capacity,
               arr := setArr q.arr (cppMod (q.rear + 1) q.capacity) v,
               size := q.size + 1 } := by
  rw [enqueue_decomp, show evict q = q from by unfold evict; rw [hnf]; rfl]
  unfold insertTail
  rw [hz]
  rfl

theorem enqueue_eq_full_one (q : circular_queue) (v : Int)
    (hf : is_full q = true) (h1 : q.size - 1 = 0) :
    (enqueue q v).1 =
      { q with front := 0, rear := 0, arr := setArr q.arr 0 v,
               size := q.size - 1 + 1 } := by
  rw [enqueue_decomp, show evict q =
      { q with front := cppMod (q.front + 1) q.capacity, size := q.size - 1 } from by
    unfold evict; rw [hf]; rfl]
  unfold insertTail
  rw [show is_empty
      { q with front := cppMod (q.front + 1) q.capacity, size := q.size - 1 } = true from by
    simp [is_empty, h1]]
  rfl

theorem enqueue_eq_full_many (q : circular_queue) (v : Int)
    (hf : is_full q = true) (h1 : q.size - 1 ≠ 0) :
    (enqueue q v).1 =
      { q with front := cppMod (q.front + 1) q.capacity,
               rear := cppMod (q.rear + 1) q.capacity,
               arr := setArr q.arr (cppMod (q.rear + 1) q.capacity) v,
               size := q.size - 1 + 1 } := by
  rw [enqueue_decomp, show evict q =
      { q with front := cppMod (q.front + 1) q.capacity, size := q.size - 1 } from by
    unfold evict; rw [hf]; rfl]
  unfold insertTail
  rw [show is_empty
      { q with front := cppMod (q.front + 1) q.capacity, size := q.size - 1 } = false from by
    simp [is_empty, h1]]
  rfl

theorem dequeue_eq_last (q : circular_queue) (hz : is_empty q = false)
    (heq : q.front = q.rear) :
    dequeue q = .ok (getArr q.arr q.front,
      { q with front := -1, rear := -1, size := q.size - 1 },
      if q.hasLogger then ["Dequeued: " ++ toString (getArr q.arr q.front)] else []) := by
  unfold dequeue
  rw [hz, show (q.front == q.rear) = true from by simp [heq]]
  rfl

theorem dequeue_eq_adv (q : circular_queue) (hz : is_empty q = false)
    (hne : q.front ≠ q.rear) :
    dequeue q = .ok (getArr q.arr q.front,
      { q with front := cppMod (q.front + 1) q.capacity, size := q.size - 1 },
      if q.hasLogger then ["Dequeued: " ++ toString (getArr q.arr q.front)] else []) := by
  unfold dequeue
  rw [hz, show (q.front == q.rear) = false from by simp [hne]]
  rfl

end Part000

namespace Part001

theorem legacy_dequeue_eq_empty (l : circular_queue) (h : l.front = -1) :
    dequeue l = (0, l,
      if l.hasLogger then ["Queue is empty! Cannot dequeue."] else []) := by
  unfold dequeue
  rw [show is_empty l = true from by simp [is_empty, h]]
  rfl

theorem legacy_dequeue_eq_last (l : circular_queue) (hne : l.front ≠ -1)
    (heq : l.front = l.rear) :
    dequeue l = (getArr l.arr l.front,
      { l with front := -1, rear := -1 },
      if l.hasLogger then ["Dequeued: " ++ toString (getArr l.arr l.front)] else []) := by
  unfold dequeue
  rw [show is_empty l = false from by simp [is_empty, hne],
      show (l.front == l.rear) = true from by simp [heq]]
  rfl

theorem legacy_dequeue_eq_adv (l : circular_queue) (hne : l.front ≠ -1)
    (hneq : l.front ≠ l.rear) :
    dequeue l = (getArr l.arr l.front,
      { l with front := cppMod (l.front + 1) l.size },
      if l.hasLogger then ["Dequeued: " ++ toString (getArr l.arr l.front)] else []) := by
  unfold dequeue
  rw [show is_empty l = false from by simp [is_empty, hne],
      show (l.front == l.rear) = false from by simp [hneq]]
  rfl

theorem legacy_enqueue_eq_empty (l : circular_queue) (v : Int)
    (hnf : is_full l = false) (hfr : l.front = -1) :
    (enqueue l v).1 =
      { l with front := 0, rear := cppMod (l.rear + 1) l.size,
               arr := setArr l.arr (cppMod (l.rear + 1) l.size) v } := by
  unfold enqueue
  rw [hnf]
  simp only [Bool.false_eq_true, if_false]
  rw [show (l.front == -1) = true from by simp [hfr]]
  rfl

theorem legacy_enqueue_eq_mid (l : circular_queue) (v : Int)
    (hnf : is_full l = false) (hfr : l.front ≠ -1) :
    (enqueue l v).1 =
      { l with rear := cppMod (l.rear + 1) l.size,
               arr := setArr l.arr (cppMod (l.rear + 1) l.size) v } := by
  unfold enqueue
  rw [hnf]
  simp only [Bool.false_eq_true, if_false]
  rw [show (l.front == -1) = false from by simp [hfr]]
  rfl

theorem legacy_enqueue_eq_full_one (l : circular_queue) (v : Int)
    (hf : is_full l = true) (hne : l.front ≠ -1) (heq : l.front = l.rear) :
    (enqueue l v).1 =
      { l with front := 0, rear := cppMod 0 l.size,
               arr := setArr l.arr (cppMod 0 l.size) v } := by
  unfold enqueue
  rw [hf, legacy_dequeue_eq_last l hne heq]
  rfl

theorem legacy_enqueue_eq_full_many (l : circular_queue) (v : Int)
    (hf : is_full l = true) (hne : l.front ≠ -1) (hneq : l.front ≠ l.rear)
    (hpos : cppMod (l.front + 1) l.size ≠ -1) :
    (enqueue l v).1 =
      { l with front := cppMod (l.front + 1) l.size,
               rear := cppMod (l.rear + 1) l.size,
               arr := setArr l.arr (cppMod (l.rear + 1) l.size) v } := by
  unfold enqueue
  rw [hf, legacy_dequeue_eq_adv l hne hneq]
  simp only [eq_self_iff_true, if_true]
  rw [show (cppMod (l.front + 1) l.size == -1) = false from by simp [hpos]]
  rfl

end Part001


namespace Part000

theorem dequeue_eq_err (q : circular_queue) (hz : q.size = 0) :
    dequeue q = .error (.underflowError "Queue is empty") := by
  unfold dequeue
  rw [show is_empty q = true from by simp [is_empty, hz]]
  rfl

theorem peek_eq_ok (q : circular_queue) (hz : q.size ≠ 0) :
    peek q = .ok (getArr q.arr q.front) := by
  unfold peek
  rw [show is_empty q = false from by simp [is_empty, hz]]
  rfl

theorem peek_eq_err (q : circular_queue) (hz : q.size = 0) :
    peek q = .error (.underflowError "Queue is empty") := by
  unfold peek
  rw [show is_empty q = true from by simp [is_empty, hz]]
  rfl

end Part000

/-- Coupling between a header-implementation state and a legacy state (for
the C9 comparison): identical array, front and rear, the legacy capacity
field (named `size` there) equals the header capacity, the header invariant
holds, and the `-1` sentinels are in force exactly on the empty state — true
in every pair of states the two implementations jointly reach from a fresh
queue. -/
def Couples (q : Part000.circular_queue) (l : Part001.circular_queue) : Prop :=
  Part000.Inv q ∧
  l.size = q.capacity ∧ l.front = q.front ∧ l.rear = q.rear ∧ l.arr = q.arr ∧
  (q.size = 0 → q.front = -1 ∧ q.rear = -1)

theorem couples_is_full {q : Part000.circular_queue} {l : Part001.circular_queue}
    (h : Couples q l) : Part001.is_full l = Part000.is_full q := by
  obtain ⟨⟨hc, hs0, hsc, hlen, hne⟩, hsz, hf, hr, ha, hsent⟩ := h
  by_cases hz : q.size = 0
  · obtain ⟨hf1, hr1⟩ := hsent hz
    rw [show Part000.is_full q = false from by
      simp only [Part000.is_full, beq_eq_false_iff_ne, ne_eq]
      omega]
    unfold Part001.is_full
    rw [hr, hf, hr1, hf1, show (-1 : Int) + 1 = 0 from by norm_num, cppMod_zero_left]
    rfl
  · obtain ⟨hf0, hfc, hrear⟩ := hne hz
    have hcpos : (0:Int) < q.capacity := hc
    have hrear' : q.rear = (q.front + q.size - 1) % q.capacity := by
      rw [hrear, cppMod_eq_emod (by omega) (by omega)]
    have hr0 : 0 ≤ q.rear := by
      rw [hrear']
      exact Int.emod_nonneg _ (by omega)
    have hval : cppMod (l.rear + 1) l.size = (q.front + q.size) % q.capacity := by
      rw [hr, hsz, cppMod_eq_emod (by omega) (by omega), hrear', emod_add_left]
      congr 1
      ring
    unfold Part001.is_full
    rw [hval, hf]
    by_cases hfull : q.size = q.capacity
    · rw [show Part000.is_full q = true from by simp [Part000.is_full, hfull]]
      simp only [beq_iff_eq]
      rw [hfull, emod_ite (q.front + q.capacity) q.capacity (by omega) (by omega),
          if_neg (by omega)]
      omega
    · rw [show Part000.is_full q = false from by simp [Part000.is_full, hfull]]
      simp only [beq_eq_false_iff_ne, ne_eq]
      intro hEq
      have h2 : (q.front + q.size) % q.capacity = (q.front + 0) % q.capacity := by
        rw [hEq, add_zero, Int.emod_eq_of_lt hf0 hfc]
      have := emod_shift_inj hf0 hfc (by omega) (by omega) le_rfl (by omega) h2
      omega

theorem couples_enqueue {q : Part000.circular_queue} {l : Part001.circular_queue}
    (v : Int) (h : Couples q l) :
    Couples (Part000.enqueue q v).1 (Part001.enqueue l v).1 := by
  have hIF := couples_is_full h
  obtain ⟨hInv, hsz, hf, hr, ha, hsent⟩ := h
  obtain ⟨hc, hs0, hsc, hlen, hne⟩ := hInv
  have hInv : Part000.Inv q := ⟨hc, hs0, hsc, hlen, hne⟩
  have hq' := Part000.enqueue_spec q v hInv
  by_cases hz : q.size = 0
  · obtain ⟨hf1, hr1⟩ := hsent hz
    have hnf : Part000.is_full q = false := by
      simp only [Part000.is_full, beq_eq_false_iff_ne, ne_eq]
      omega
    have hH := Part000.enqueue_eq_empty q v hnf (by simp [Part000.is_empty, hz])
    have hL := Part001.legacy_enqueue_eq_empty l v (by rw [hIF, hnf]) (by rw [hf, hf1])
    have hrv : cppMod (l.rear + 1) l.size = 0 := by
      rw [hr, hr1, show (-1 : Int) + 1 = 0 from by norm_num, cppMod_zero_left]
    rw [hL, hrv]
    refine ⟨hq'.1, ?_, ?_, ?_, ?_, ?_⟩
    · rw [hH]
      exact hsz
    · rw [hH]
    · rw [hH]
    · rw [hH]
      dsimp only
      rw [ha]
    · rw [hH]
      intro hcontra
      dsimp only at hcontra
      omega
  · obtain ⟨hf0, hfc, hrear⟩ := hne hz
    have hcpos : (0:Int) < q.capacity := hc
    have hrear' : q.rear = (q.front + q.size - 1) % q.capacity := by
      rw [hrear, cppMod_eq_emod (by omega) (by omega)]
    have hr0 : 0 ≤ q.rear := by
      rw [hrear']
      exact Int.emod_nonneg _ (by omega)
    by_cases hfull : q.size = q.capacity
    · have hfb : Part000.is_full q = true := by simp [Part000.is_full, hfull]
      have hLf : Part001.is_full l = true := by rw [hIF, hfb]
      have hnel : l.front ≠ -1 := by rw [hf]; omega
      by_cases hone : q.size = 1
      · have heqfr : q.front = q.rear := by
          rw [hrear', hone, show q.front + 1 - 1 = q.front from by ring,
              Int.emod_eq_of_lt hf0 hfc]
        have hH := Part000.enqueue_eq_full_one q v hfb (by omega)
        have hL := Part001.legacy_enqueue_eq_full_one l v hLf hnel (by rw [hf, hr]; exact heqfr)
        rw [hL, cppMod_zero_left]
        refine ⟨hq'.1, ?_, ?_, ?_, ?_, ?_⟩
        · rw [hH]
          exact hsz
        · rw [hH]
        · rw [hH]
        · rw [hH]
          dsimp only
          rw [ha]
        · rw [hH]
          intro hcontra
          dsimp only at hcontra
          omega
      · have hneqfr : q.front ≠ q.rear := by
          intro hEq
          have h2 : (q.front + 0) % q.capacity = (q.front + (q.size - 1)) % q.capacity := by
            have e1 : (q.front + 0) % q.capacity = q.front := by
              rw [add_zero]
              exact Int.emod_eq_of_lt hf0 hfc
            have e2 : (q.front + (q.size - 1)) % q.capacity = q.rear := by
              rw [hrear']
              congr 1
              ring
            rw [e1, e2, hEq]
          have := emod_shift_inj hf0 hfc le_rfl (by omega) (by omega) (by omega) h2
          omega
        have hH := Part000.enqueue_eq_full_many q v hfb (by omega)
        have hpos : cppMod (l.front + 1) l.size ≠ -1 := by
          rw [hf, hsz, cppMod_eq_emod (by omega) (by omega)]
          have := Int.emod_nonneg (q.front + 1) (show q.capacity ≠ 0 from by omega)
          omega
        have hL := Part001.legacy_enqueue_eq_full_many l v hLf hnel
          (by rw [hf, hr]; exact hneqfr) hpos
        rw [hL]
        refine ⟨hq'.1, ?_, ?_, ?_, ?_, ?_⟩
        · rw [hH]
          exact hsz
        · rw [hH]
          dsimp only
          rw [hf, hsz]
        · rw [hH]
          dsimp only
          rw [hr, hsz]
        · rw [hH]
          dsimp only
          rw [ha, hr, hsz]
        · rw [hH]
          intro hcontra
          dsimp only at hcontra
          omega
    · have hnf : Part000.is_full q = false := by simp [Part000.is_full, hfull]
      have hH := Part000.enqueue_eq_mid q v hnf (by simp [Part000.is_empty, hz])
      have hL := Part001.legacy_enqueue_eq_mid l v (by rw [hIF, hnf]) (by rw [hf]; omega)
      rw [hL]
      refine ⟨hq'.1, ?_, ?_, ?_, ?_, ?_⟩
      · rw [hH]
        exact hsz
      · rw [hH]
        dsimp only
        exact hf
      · rw [hH]
        dsimp only
        rw [hr, hsz]
      · rw [hH]
        dsimp only
        rw [ha, hr, hsz]
      · rw [hH]
        intro hcontra
        dsimp only at hcontra
        omega

theorem couples_dequeue {q : Part000.circular_queue} {l : Part001.circular_queue}
    (h : Couples q l) :
    Couples (match Part000.dequeue q with | .ok r => r.2.1 | .error _ => q)
      (Part001.dequeue l).2.1 ∧
    (q.size ≠ 0 →
      ∃ q' ev, Part000.dequeue q = .ok ((Part001.dequeue l).1, q', ev)) := by
  obtain ⟨hInv, hsz, hf, hr, ha, hsent⟩ := h
  obtain ⟨hc, hs0, hsc, hlen, hne⟩ := hInv
  have hInv : Part000.Inv q := ⟨hc, hs0, hsc, hlen, hne⟩
  by_cases hz : q.size = 0
  · obtain ⟨hf1, hr1⟩ := hsent hz
    rw [Part000.dequeue_eq_err q hz, Part001.legacy_dequeue_eq_empty l (by rw [hf, hf1])]
    exact ⟨⟨hInv, hsz, hf, hr, ha, hsent⟩, fun hcontra => absurd hz hcontra⟩
  · obtain ⟨hf0, hfc, hrear⟩ := hne hz
    have hcpos : (0:Int) < q.capacity := hc
    have hrear' : q.rear = (q.front + q.size - 1) % q.capacity := by
      rw [hrear, cppMod_eq_emod (by omega) (by omega)]
    have hnel : l.front ≠ -1 := by rw [hf]; omega
    by_cases hone : q.size = 1
    · have heqfr : q.front = q.rear := by
        rw [hrear', hone, show q.front + 1 - 1 = q.front from by ring,
            Int.emod_eq_of_lt hf0 hfc]
      have hD := Part000.dequeue_eq_last q (by simp [Part000.is_empty, hz]) heqfr
      have hDl := Part001.legacy_dequeue_eq_last l hnel (by rw [hf, hr]; exact heqfr)
      rw [hD, hDl]
      refine ⟨⟨⟨hc, by dsimp only; omega, by dsimp only; omega, hlen, ?_⟩,
        hsz, rfl, rfl, ha, fun _ => ⟨rfl, rfl⟩⟩, ?_⟩
      · intro hcontra
        dsimp only at hcontra
        omega
      · intro _
        refine ⟨{ q with front := -1, rear := -1, size := q.size - 1 },
          if q.hasLogger then ["Dequeued: " ++ toString (getArr q.arr q.front)]
          else [], ?_⟩
        dsimp only
        rw [ha, hf]
    · have hneqfr : q.front ≠ q.rear := by
        intro hEq
        have e1 : (q.front + 0) % q.capacity = q.front := by
          rw [add_zero]
          exact Int.emod_eq_of_lt hf0 hfc
        have e2 : (q.front + (q.size - 1)) % q.capacity = q.rear := by
          rw [hrear']
          congr 1
          ring
        have h2 : (q.front + 0) % q.capacity = (q.front + (q.size - 1)) % q.capacity := by
          rw [e1, e2, hEq]
        have := emod_shift_inj hf0 hfc le_rfl (by omega) (by omega) (by omega) h2
        omega
      obtain ⟨q', heq, hi, hcap', hLg', hsz', hsnap'⟩ := Part000.dequeue_spec q hInv hz
      have hD := Part000.dequeue_eq_adv q (by simp [Part000.is_empty, hz]) hneqfr
      rw [hD] at heq
      simp only [Except.ok.injEq, Prod.mk.injEq] at heq
      obtain ⟨-, hq'rec, -⟩ := heq
      have hDl := Part001.legacy_dequeue_eq_adv l hnel (by rw [hf, hr]; exact hneqfr)
      rw [hD, hDl]
      refine ⟨⟨hq'rec ▸ hi, ?_, ?_, ?_, ?_, ?_⟩, ?_⟩
      · exact hsz
      · dsimp only
        rw [hf, hsz]
      · exact hr
      · exact ha
      · intro hcontra
        dsimp only at hcontra
        omega
      · intro _
        refine ⟨{ q with front := cppMod (q.front + 1) q.capacity, size := q.size - 1 },
          if q.hasLogger then ["Dequeued: " ++ toString (getArr q.arr q.front)]
          else [], ?_⟩
        dsimp only
        rw [ha, hf]

theorem couples_clear {q : Part000.circular_queue} {l : Part001.circular_queue}
    (h : Couples q l) :
    Couples (Part000.clear q).1 (Part001.clear l).1 := by
  obtain ⟨⟨hc, hs0, hsc, hlen, hne⟩, hsz, hf, hr, ha, hsent⟩ := h
  exact ⟨⟨hc, by dsimp only [Part000.clear]; omega, by dsimp only [Part000.clear]; omega,
    hlen, fun h' => absurd rfl h'⟩, hsz, rfl, rfl, ha, fun _ => ⟨rfl, rfl⟩⟩

/-- The operations available on both implementations, for the C9 comparison
(only the header variant has `resize` and `get_element_at`). -/
inductive Op9 where
  | enq (v : Int)
  | deq
  | clr
  deriving DecidableEq, Repr

namespace Part000

/-- A shared-vocabulary operation on the header implementation (a failed
`dequeue` throws before mutating, leaving the state unchanged). -/
def step9 (q : circular_queue) : Op9 → circular_queue
  | .enq v => (enqueue q v).1
  | .deq =>
    match dequeue q with
    | .ok r => r.2.1
    | .error _ => q
  | .clr => (clear q).1

/-- A sequence of shared-vocabulary operations on the header implementation. -/
def run9 (q : circular_queue) (ops : List Op9) : circular_queue :=
  ops.foldl step9 q

end Part000

namespace Part001

/-- A shared-vocabulary operation on the legacy implementation (its `dequeue`
never fails; on an empty queue it returns a default value and leaves the
state unchanged). -/
def step9 (q : circular_queue) : Op9 → circular_queue
  | .enq v => (enqueue q v).1
  | .deq => (dequeue q).2.1
  | .clr => (clear q).1

/-- A sequence of shared-vocabulary operations on the legacy implementation. -/
def run9 (q : circular_queue) (ops : List Op9) : circular_queue :=
  ops.foldl step9 q

/-- The logical contents of a legacy queue state, oldest to newest, stated
per the spec's data model (`storage[(head_index + i) mod capacity]` for `i`
below the count, with mathematical mod): the abstraction function for the C9
comparison — this variant has no snapshot function of its own. -/
def contents (q : circular_queue) : List Int :=
  if q.front = -1 then []
  else (List.range (((q.rear - q.front) % q.size + 1).toNat)).map
    (fun (i : Nat) => getArr q.arr ((q.front + (i : Int)) % q.size))

end Part001

theorem couples_step9 {q : Part000.circular_queue} {l : Part001.circular_queue}
    (op : Op9) (h : Couples q l) :
    Couples (Part000.step9 q op) (Part001.step9 l op) := by
  cases op with
  | enq v => exact couples_enqueue v h
  | deq => exact (couples_dequeue h).1
  | clr => exact couples_clear h

theorem couples_run9 {q : Part000.circular_queue} {l : Part001.circular_queue}
    (ops : List Op9) (h : Couples q l) :
    Couples (Part000.run9 q ops) (Part001.run9 l ops) := by
  induction ops generalizing q l with
  | nil => exact h
  | cons op ops ih => exact ih (couples_step9 op h)

theorem couples_contents {q : Part000.circular_queue} {l : Part001.circular_queue}
    (h : Couples q l) : Part001.contents l = Part000.get_all_elements q := by
  obtain ⟨⟨hc, hs0, hsc, hlen, hne⟩, hsz, hf, hr, ha, hsent⟩ := h
  by_cases hz : q.size = 0
  · obtain ⟨hf1, _⟩ := hsent hz
    rw [show Part001.contents l = [] from by
        unfold Part001.contents
        rw [if_pos (by rw [hf, hf1])],
      show Part000.get_all_elements q = [] from by
        simp [Part000.get_all_elements, hz]]
  · obtain ⟨hf0, hfc, hrear⟩ := hne hz
    have hcpos : (0:Int) < q.capacity := hc
    have hrear' : q.rear = (q.front + q.size - 1) % q.capacity := by
      rw [hrear, cppMod_eq_emod (by omega) (by omega)]
    have hcount : (l.rear - l.front) % l.size + 1 = q.size := by
      rw [hr, hf, hsz, hrear', emod_sub_left,
          show q.front + q.size - 1 - q.front = q.size - 1 from by ring,
          Int.emod_eq_of_lt (by omega) (by omega)]
      ring
    unfold Part001.contents
    rw [if_neg (by rw [hf]; omega), hcount,
        Part000.get_all_elements_emod q hf0 (by omega)]
    refine List.map_congr_left ?_
    intro i _
    rw [ha, hf, hsz]

theorem couples_peek {q : Part000.circular_queue} {l : Part001.circular_queue}
    (h : Couples q l) (hz : q.size ≠ 0) :
    Part000.peek q = .ok ((Part001.peek l).1) := by
  obtain ⟨⟨hc, hs0, hsc, hlen, hne⟩, hsz, hf, hr, ha, hsent⟩ := h
  obtain ⟨hf0, _, _⟩ := hne hz
  rw [Part000.peek_eq_ok q hz]
  unfold Part001.peek
  rw [show Part001.is_empty l = false from by
    simp only [Part001.is_empty, beq_eq_false_iff_ne, ne_eq, hf]
    omega]
  simp only [Bool.false_eq_true, if_false]
  rw [ha, hf]

theorem couples_mk (n : Int) (Lh Ll : Bool) (q : Part000.circular_queue)
    (l : Part001.circular_queue)
    (hq : Part000.mk n Lh = .ok q) (hl : Part001.mk n Ll = .ok l) :
    Couples q l := by
  obtain ⟨hn, hcap, hszq, hLg, hInv, -⟩ := Part000.mk_spec n Lh q hq
  unfold Part001.mk at hl
  rw [if_neg (by omega)] at hl
  simp only [Except.ok.injEq] at hl
  subst hl
  unfold Part000.mk at hq
  rw [if_neg (by omega)] at hq
  simp only [Except.ok.injEq] at hq
  subst hq
  exact ⟨hInv, rfl, rfl, rfl, rfl, fun _ => ⟨rfl, rfl⟩⟩

namespace Part000

/-- The observer notifications emitted by one call on the header
implementation.  The mutators return the event list their body emits; a call
that throws emits nothing (every throw in the source precedes the logger
call); the read-only members (`peek`, `get_element_at`, `get_all_elements`,
`is_full`, `is_empty`, `get_size`, `get_capacity`) contain no logger
invocation in the source, so they emit nothing. -/
def eventsOf (q : circular_queue) : Op → List String
  | .enq v => (enqueue q v).2
  | .deq =>
    match dequeue q with
    | .ok r => r.2.2
    | .error _ => []
  | .clr => (clear q).2
  | .rsz k =>
    match resize q k with
    | .ok r => r.2
    | .error _ => []
  | .pk => []
  | .elemAt _ => []
  | .snap => []

end Part000

/-- C1: on the header implementation, `enqueue` always succeeds (it is a
total function returning a state, with no error outcome, matching the
source, whose `enqueue` contains no `throw`), and an enqueue into a full
buffer first evicts the oldest element — `front` advances by one modulo
`capacity` (with the count momentarily decremented) — so that the size stays
exactly `capacity` and the new snapshot is the old snapshot with its oldest
element dropped and the new value appended. -/
theorem C1_enqueue_overwrites_oldest (q : Part000.circular_queue) (v : Int)
    (h : Part000.Inv q) (hfull : q.size = q.capacity) :
    (Part000.enqueue q v).1.size = q.capacity ∧
    (Part000.enqueue q v).1.front = cppMod (q.front + 1) q.capacity ∧
    Part000.get_all_elements (Part000.enqueue q v).1 =
      (Part000.get_all_elements q).drop 1 ++ [v] := by
  have hq := Part000.enqueue_spec q v h
  obtain ⟨hc, hs0, hsc, hlen, hne⟩ := h
  obtain ⟨hf0, hfc, hrear⟩ := hne (by omega)
  refine ⟨by rw [hq.2.2.2.1, if_pos hfull], ?_, by rw [hq.2.2.2.2, if_pos hfull]⟩
  by_cases hone : q.size = 1
  · rw [Part000.enqueue_eq_full_one q v (by simp [Part000.is_full, hfull]) (by omega)]
    dsimp only
    have hfz : q.front = 0 := by omega
    rw [hfz, cppMod_eq_emod (by omega) (by omega),
        show (0:Int) + 1 = 1 from by norm_num, ← hfull, hone]
    norm_num
  · rw [Part000.enqueue_eq_full_many q v (by simp [Part000.is_full, hfull]) (by omega)]

/-- C1 witness: capacity 3 holding `[1,2,3]`; enqueueing 4 keeps size 3,
advances the head, and yields snapshot `[2,3,4]`. -/
theorem C1_witness :
    (Part000.enqueue ⟨[1, 2, 3], 0, 2, 3, 3, false⟩ 4).1.size = 3 ∧
    (Part000.enqueue ⟨[1, 2, 3], 0, 2, 3, 3, false⟩ 4).1.front = cppMod (0 + 1) 3 ∧
    Part000.get_all_elements (Part000.enqueue ⟨[1, 2, 3], 0, 2, 3, 3, false⟩ 4).1 =
      (Part000.get_all_elements ⟨[1, 2, 3], 0, 2, 3, 3, false⟩).drop 1 ++ [4] :=
  C1_enqueue_overwrites_oldest ⟨[1, 2, 3], 0, 2, 3, 3, false⟩ 4 (by decide) rfl

/-- C2 counterexample: the legacy implementation's `dequeue` on a freshly
constructed (hence empty) queue does not fail: it returns the
default-constructed value `0` — indistinguishable from legitimate data —
with the state unchanged. -/
theorem C2_counterexample :
    (Part001.mk 3 false).map (fun l => Part001.dequeue l) =
      .ok (0, { arr := [0, 0, 0], front := -1, rear := -1, size := 3,
                hasLogger := false }, []) := rfl

/-- C2 (amended): in the header implementation, `dequeue()` on an empty
buffer fails with the underflow error ("EmptyBufferError") and never returns
a value; the legacy variant instead silently returns a default-constructed
value. -/
theorem C2_dequeue_empty_fails (q : Part000.circular_queue) (h : q.size = 0) :
    Part000.dequeue q = .error (.underflowError "Queue is empty") :=
  Part000.dequeue_eq_err q h

/-- C2 witness: a fresh capacity-3 header queue. -/
theorem C2_witness :
    Part000.dequeue ⟨[0, 0, 0], -1, -1, 0, 3, false⟩ =
      .error (.underflowError "Queue is empty") :=
  C2_dequeue_empty_fails ⟨[0, 0, 0], -1, -1, 0, 3, false⟩ rfl

/-- C3: `is_full` holds exactly when `count = capacity` and `is_empty`
exactly when `count = 0` (both are pure: in the embedding they are functions
of the state returning only a `Bool`, mirroring the `const` source members,
which contain no logger call); moreover a buffer of capacity `n` really
holds `n` elements: after `k ≤ n` enqueues from a fresh queue, it is full
exactly when `k = n` and empty exactly when `k = 0`. -/
theorem C3_predicates :
    (∀ q : Part000.circular_queue,
      (Part000.is_full q = true ↔ Part000.get_size q = Part000.get_capacity q) ∧
      (Part000.is_empty q = true ↔ Part000.get_size q = 0)) ∧
    (∀ (n : Int) (L : Bool) (q0 : Part000.circular_queue) (vs : List Int),
      Part000.mk n L = .ok q0 → vs.length ≤ n.toNat →
      ((Part000.is_full (Part000.enqueueAll q0 vs) = true ↔ vs.length = n.toNat) ∧
       (Part000.is_empty (Part000.enqueueAll q0 vs) = true ↔ vs = []))) := by
  constructor
  · intro q
    constructor
    · simp [Part000.is_full, Part000.get_size, Part000.get_capacity]
    · simp [Part000.is_empty, Part000.get_size]
  · intro n L q0 vs hmk hlen
    obtain ⟨hn, hcap, hsz, hLg, hInv, hsnap⟩ := Part000.mk_spec n L q0 hmk
    obtain ⟨r1, r2, r3, r4⟩ := Part000.enqueueAll_spec vs q0 hInv
      (by rw [hsz, hcap]; omega)
    constructor
    · simp only [Part000.is_full, beq_iff_eq]
      rw [r3, r2, hsz, hcap]
      omega
    · simp only [Part000.is_empty, beq_iff_eq]
      rw [r3, hsz]
      constructor
      · intro h0
        have hvl : vs.length = 0 := by omega
        exact List.eq_nil_of_length_eq_zero hvl
      · intro h0
        rw [h0]
        simp

/-- C3 witness: capacity 3; after 3 enqueues the queue is full and not
empty, and the definitional characterisations hold at that state. -/
theorem C3_witness :
    ((Part000.is_full (Part000.enqueueAll ⟨[0, 0, 0], -1, -1, 0, 3, false⟩ [7, 8, 9]) = true ↔
       ([7, 8, 9] : List Int).length = (3 : Int).toNat) ∧
     (Part000.is_empty (Part000.enqueueAll ⟨[0, 0, 0], -1, -1, 0, 3, false⟩ [7, 8, 9]) = true ↔
       ([7, 8, 9] : List Int) = [])) :=
  C3_predicates.2 3 false ⟨[0, 0, 0], -1, -1, 0, 3, false⟩ [7, 8, 9] rfl (by decide)

/-- C4: evaluation at the failing input: `resize(0)` on a fresh, empty
capacity-1 header queue does not fail — the source only checks
`new_capacity < size`, i.e. `0 < 0` — and instead succeeds, releasing the
storage and setting `capacity() = 0`, contradicting the claim that every
`k ≤ 0` fails with InvalidCapacity (a subsequent `enqueue` would then
compute `% 0`, undefined behaviour in C++). -/
theorem C4_resize_zero_succeeds :
    (Part000.mk 1 false).map (fun q => Part000.resize q 0) =
      .ok (.ok ({ arr := [], front := 0, rear := -1, size := 0, capacity := 0,
                  hasLogger := false }, [])) := rfl

/-- C5: enqueueing any sequence of `k ≤ capacity` values into a fresh header
queue yields `snapshot() = `the values in enqueue order and `size() = k`.
(The snapshot is an independent copy: `get_all_elements` builds a fresh
vector by value in the source, and in the embedding it returns a list that
shares no mutable state with the queue.) -/
theorem C5_snapshot_of_enqueues (n : Int) (L : Bool) (q0 : Part000.circular_queue)
    (vs : List Int) (hmk : Part000.mk n L = .ok q0) (hlen : vs.length ≤ n.toNat) :
    Part000.get_all_elements (Part000.enqueueAll q0 vs) = vs ∧
    Part000.get_size (Part000.enqueueAll q0 vs) = vs.length := by
  obtain ⟨hn, hcap, hsz, hLg, hInv, hsnap⟩ := Part000.mk_spec n L q0 hmk
  obtain ⟨r1, r2, r3, r4⟩ := Part000.enqueueAll_spec vs q0 hInv
    (by rw [hsz, hcap]; omega)
  constructor
  · rw [r4, hsnap]
    simp
  · show (Part000.enqueueAll q0 vs).size = (vs.length : Int)
    rw [r3, hsz]
    simp

/-- C5 witness: capacity 3, enqueue 10, 20, 30: snapshot `[10,20,30]`,
size 3. -/
theorem C5_witness :
    Part000.get_all_elements (Part000.enqueueAll ⟨[0, 0, 0], -1, -1, 0, 3, false⟩ [10, 20, 30]) =
      [10, 20, 30] ∧
    Part000.get_size (Part000.enqueueAll ⟨[0, 0, 0], -1, -1, 0, 3, false⟩ [10, 20, 30]) =
      ([10, 20, 30] : List Int).length :=
  C5_snapshot_of_enqueues 3 false ⟨[0, 0, 0], -1, -1, 0, 3, false⟩ [10, 20, 30] rfl (by decide)

/-- C6 counterexample: the legacy constructor performs no validation, so
constructing with the non-positive capacity 0 succeeds (it allocates
`new T[0]`), contradicting the claim that construction fails for every
non-positive requested capacity. -/
theorem C6_counterexample :
    Part001.mk 0 false =
      .ok { arr := [], front := -1, rear := -1, size := 0, hasLogger := false } := rfl

/-- C6 (amended): in the header implementation, construction fails with
InvalidCapacity for every non-positive requested capacity, and every
successfully constructed buffer has `capacity ≥ 1` and starts empty; the
legacy variant's constructor performs no such validation. -/
theorem C6_construction (n : Int) (L : Bool) :
    (n ≤ 0 → Part000.mk n L =
      .error (.invalidArgument "Queue capacity must be greater than 0.")) ∧
    (∀ q, Part000.mk n L = .ok q →
      1 ≤ Part000.get_capacity q ∧ Part000.get_capacity q = n ∧
      Part000.get_size q = 0 ∧ Part000.is_empty q = true) := by
  constructor
  · intro hn
    unfold Part000.mk
    rw [if_pos hn]
  · intro q hq
    obtain ⟨hn, hcap, hsz, hLg, hInv, -⟩ := Part000.mk_spec n L q hq
    refine ⟨?_, hcap, hsz, ?_⟩
    · show 1 ≤ q.capacity
      omega
    · simp [Part000.is_empty, hsz]

/-- C6 witness: capacity -2 is rejected; capacity 3 is accepted with
`capacity = 3` and an empty queue. -/
theorem C6_witness :
    Part000.mk (-2) false =
      .error (.invalidArgument "Queue capacity must be greater than 0.") ∧
    (1 ≤ Part000.get_capacity ⟨[0, 0, 0], -1, -1, 0, 3, false⟩ ∧
     Part000.get_capacity ⟨[0, 0, 0], -1, -1, 0, 3, false⟩ = 3 ∧
     Part000.get_size ⟨[0, 0, 0], -1, -1, 0, 3, false⟩ = 0 ∧
     Part000.is_empty ⟨[0, 0, 0], -1, -1, 0, 3, false⟩ = true) :=
  ⟨(C6_construction (-2) false).1 (by decide),
   (C6_construction 3 false).2 ⟨[0, 0, 0], -1, -1, 0, 3, false⟩ rfl⟩

/-- C7: on the header implementation, `peek` on an empty buffer fails with
the underflow error, and on a non-empty buffer `peek` returns the value at
`front` without mutating anything (in the embedding `peek` is a function of
the state returning only a value, mirroring the `const` source member), a
following `dequeue` returns that same value, and the `dequeue` decreases the
size by exactly 1. -/
theorem C7_peek_then_dequeue (q : Part000.circular_queue) (h : Part000.Inv q) :
    (q.size = 0 → Part000.peek q = .error (.underflowError "Queue is empty")) ∧
    (q.size ≠ 0 → ∃ v q' ev, Part000.peek q = .ok v ∧
      Part000.dequeue q = .ok (v, q', ev) ∧
      Part000.get_size q' = Part000.get_size q - 1) := by
  constructor
  · exact Part000.peek_eq_err q
  · intro hz
    obtain ⟨q', heq, hi, hcap', hLg', hsz', hsnap'⟩ := Part000.dequeue_spec q h hz
    exact ⟨getArr q.arr q.front, q',
      if q.hasLogger then ["Dequeued: " ++ toString (getArr q.arr q.front)] else [],
      Part000.peek_eq_ok q hz, heq, hsz'⟩

/-- C7 witness: a capacity-3 queue holding the single element 5. -/
theorem C7_witness :
    (∃ v q' ev, Part000.peek ⟨[5, 0, 0], 0, 0, 1, 3, false⟩ = .ok v ∧
      Part000.dequeue ⟨[5, 0, 0], 0, 0, 1, 3, false⟩ = .ok (v, q', ev) ∧
      Part000.get_size q' = Part000.get_size ⟨[5, 0, 0], 0, 0, 1, 3, false⟩ - 1) :=
  (C7_peek_then_dequeue ⟨[5, 0, 0], 0, 0, 1, 3, false⟩ (by decide)).2 (by decide)

/-- C8 counterexample: in the legacy implementation, the read-only `peek` on
a non-empty queue with an observer emits a notification ("Peeked at: 10"),
and an enqueue into a full queue emits two notifications (the "Dequeued"
event of the internal eviction plus the "Enqueued" event) — contradicting
the claim that read-only calls trigger none and every mutating call triggers
exactly one. -/
theorem C8_counterexample :
    (Part001.mk 3 true).map (fun l => (Part001.peek (Part001.enqueue l 10).1).2) =
      .ok ["Peeked at: 10"] ∧
    (Part001.mk 1 true).map (fun l =>
      ((Part001.enqueue (Part001.enqueue l 1).1 2).2).length) = .ok 2 :=
  ⟨rfl, rfl⟩

/-- C8 (amended): in the header implementation with an observer present,
every successful mutating call — `enqueue` (including into a full buffer),
`dequeue`, `clear`, `resize` — emits exactly one notification, every failing
mutating call emits none (each throw precedes the logger call), and the
read-only calls (`peek`, `element_at`, `snapshot`, and the predicates and
getters, none of which contain a logger call) emit none.  The legacy variant
deviates: its `peek` notifies, and its enqueue-on-full notifies twice. -/
theorem C8_observer_notifications (q : Part000.circular_queue) (v k : Int) (i : Int)
    (hL : q.hasLogger = true) :
    (Part000.eventsOf q (.enq v)).length = 1 ∧
    (Part000.eventsOf q .clr).length = 1 ∧
    (q.size ≠ 0 → (Part000.eventsOf q .deq).length = 1) ∧
    (q.size = 0 → Part000.eventsOf q .deq = []) ∧
    (¬ k < q.size → (Part000.eventsOf q (.rsz k)).length = 1) ∧
    (k < q.size → Part000.eventsOf q (.rsz k) = []) ∧
    Part000.eventsOf q .pk = [] ∧
    Part000.eventsOf q (.elemAt i) = [] ∧
    Part000.eventsOf q .snap = [] := by
  refine ⟨?_, ?_, ?_, ?_, ?_, ?_, rfl, rfl, rfl⟩
  · show (Part000.enqueue q v).2.length = 1
    unfold Part000.enqueue
    dsimp only
    split <;> split <;> simp [hL]
  · show (Part000.clear q).2.length = 1
    simp [Part000.clear, hL]
  · intro hz
    show (match Part000.dequeue q with | .ok r => r.2.2 | .error _ => []).length = 1
    by_cases hfr : q.front = q.rear
    · rw [Part000.dequeue_eq_last q (by simp [Part000.is_empty, hz]) hfr]
      simp [hL]
    · rw [Part000.dequeue_eq_adv q (by simp [Part000.is_empty, hz]) hfr]
      simp [hL]
  · intro hz
    show (match Part000.dequeue q with | .ok r => r.2.2 | .error _ => []) = []
    rw [Part000.dequeue_eq_err q hz]
  · intro hk
    show (match Part000.resize q k with | .ok r => r.2 | .error _ => []).length = 1
    unfold Part000.resize
    rw [if_neg hk]
    simp [hL]
  · intro hk
    show (match Part000.resize q k with | .ok r => r.2 | .error _ => []) = []
    unfold Part000.resize
    rw [if_pos hk]

/-- C8 witness: a capacity-3 queue holding one element, with an observer. -/
theorem C8_witness :
    ((Part000.eventsOf ⟨[5, 0, 0], 0, 0, 1, 3, true⟩ (.enq 6)).length = 1 ∧
     (Part000.eventsOf ⟨[5, 0, 0], 0, 0, 1, 3, true⟩ .clr).length = 1 ∧
     ((⟨[5, 0, 0], 0, 0, 1, 3, true⟩ : Part000.circular_queue).size ≠ 0 →
       (Part000.eventsOf ⟨[5, 0, 0], 0, 0, 1, 3, true⟩ .deq).length = 1) ∧
     ((⟨[5, 0, 0], 0, 0, 1, 3, true⟩ : Part000.circular_queue).size = 0 →
       Part000.eventsOf ⟨[5, 0, 0], 0, 0, 1, 3, true⟩ .deq = []) ∧
     (¬ (2:Int) < (⟨[5, 0, 0], 0, 0, 1, 3, true⟩ : Part000.circular_queue).size →
       (Part000.eventsOf ⟨[5, 0, 0], 0, 0, 1, 3, true⟩ (.rsz 2)).length = 1) ∧
     ((2:Int) < (⟨[5, 0, 0], 0, 0, 1, 3, true⟩ : Part000.circular_queue).size →
       Part000.eventsOf ⟨[5, 0, 0], 0, 0, 1, 3, true⟩ (.rsz 2) = []) ∧
     Part000.eventsOf ⟨[5, 0, 0], 0, 0, 1, 3, true⟩ .pk = [] ∧
     Part000.eventsOf ⟨[5, 0, 0], 0, 0, 1, 3, true⟩ (.elemAt 0) = [] ∧
     Part000.eventsOf ⟨[5, 0, 0], 0, 0, 1, 3, true⟩ .snap = []) :=
  C8_observer_notifications ⟨[5, 0, 0], 0, 0, 1, 3, true⟩ 6 2 0 rfl

/-- C9 counterexample: on the same operation sequence (none, from fresh
capacity-3 queues), `dequeue` does not yield the same result in the two
variants: the header implementation fails with an exception, while the
legacy implementation returns the value 0. -/
theorem C9_counterexample :
    (Part000.mk 3 false).map (fun q => Part000.dequeue q) =
      .ok (.error (.underflowError "Queue is empty")) ∧
    (Part001.mk 3 false).map (fun l => (Part001.dequeue l).1) = .ok 0 :=
  ⟨rfl, rfl⟩

/-- C9 (amended): starting from fresh queues of the same capacity, after any
sequence of shared operations (enqueue, dequeue, clear) the two enqueue-on-
full variants hold the same logical contents (the header's snapshot equals
the legacy occupied sequence), and peek/dequeue on a NON-empty buffer return
the same value in both; they differ in the emitted event sequence and on an
empty buffer, where the header dequeue/peek fail while the legacy ones
return a default value. -/
theorem C9_refinement (n : Int) (q0 : Part000.circular_queue)
    (l0 : Part001.circular_queue) (ops : List Op9)
    (hq : Part000.mk n false = .ok q0) (hl : Part001.mk n false = .ok l0) :
    Part001.contents (Part001.run9 l0 ops) =
      Part000.get_all_elements (Part000.run9 q0 ops) ∧
    ((Part000.run9 q0 ops).size ≠ 0 →
      Part000.peek (Part000.run9 q0 ops) =
        .ok ((Part001.peek (Part001.run9 l0 ops)).1) ∧
      ∃ q' ev, Part000.dequeue (Part000.run9 q0 ops) =
        .ok ((Part001.dequeue (Part001.run9 l0 ops)).1, q', ev)) := by
  have h0 := couples_mk n false false q0 l0 hq hl
  have h := couples_run9 ops h0
  exact ⟨couples_contents h, fun hz => ⟨couples_peek h hz, (couples_dequeue h).2 hz⟩⟩

/-- C9 witness: capacity 2, operations enqueue 4, 5, 6 (the last overwrites)
then dequeue; the final states agree on contents and on peek/dequeue
results. -/
theorem C9_witness :
    (Part001.contents (Part001.run9 ⟨[0, 0], -1, -1, 2, false⟩
        [.enq 4, .enq 5, .enq 6, .deq]) =
      Part000.get_all_elements (Part000.run9 ⟨[0, 0], -1, -1, 0, 2, false⟩
        [.enq 4, .enq 5, .enq 6, .deq])) ∧
    (Part000.peek (Part000.run9 ⟨[0, 0], -1, -1, 0, 2, false⟩
        [.enq 4, .enq 5, .enq 6, .deq]) =
      .ok ((Part001.peek (Part001.run9 ⟨[0, 0], -1, -1, 2, false⟩
        [.enq 4, .enq 5, .enq 6, .deq])).1) ∧
     ∃ q' ev, Part000.dequeue (Part000.run9 ⟨[0, 0], -1, -1, 0, 2, false⟩
        [.enq 4, .enq 5, .enq 6, .deq]) =
      .ok ((Part001.dequeue (Part001.run9 ⟨[0, 0], -1, -1, 2, false⟩
        [.enq 4, .enq 5, .enq 6, .deq])).1, q', ev)) := by
  have h := C9_refinement 2 ⟨[0, 0], -1, -1, 0, 2, false⟩ ⟨[0, 0], -1, -1, 2, false⟩
    [.enq 4, .enq 5, .enq 6, .deq] rfl rfl
  exact ⟨h.1, h.2 (by decide)⟩

/-- C10: the invariant `0 ≤ count ≤ capacity` holds after construction and
after every sequence of operations (enqueue, dequeue, clear, resize, peek,
element access, snapshot), whether each individual call succeeds or throws. -/
theorem C10_count_invariant (n : Int) (L : Bool) (q0 : Part000.circular_queue)
    (ops : List Op) (h : Part000.mk n L = .ok q0) :
    0 ≤ (Part000.run q0 ops).size ∧
    (Part000.run q0 ops).size ≤ (Part000.run q0 ops).capacity := by
  obtain ⟨hn, hcap, hsz, -, -, -⟩ := Part000.mk_spec n L q0 h
  exact Part000.run_Inv10 q0 ops ⟨by omega, by omega⟩

/-- C10 witness: capacity 2 with a mix of successful and failing operations,
including a failing dequeue, a failing resize, an overwriting enqueue and a
successful resize. -/
theorem C10_witness :
    0 ≤ (Part000.run ⟨[0, 0], -1, -1, 0, 2, false⟩
      [.deq, .enq 1, .enq 2, .enq 3, .rsz 1, .rsz 4, .pk, .snap, .elemAt 0, .clr]).size ∧
    (Part000.run ⟨[0, 0], -1, -1, 0, 2, false⟩
      [.deq, .enq 1, .enq 2, .enq 3, .rsz 1, .rsz 4, .pk, .snap, .elemAt 0, .clr]).size ≤
    (Part000.run ⟨[0, 0], -1, -1, 0, 2, false⟩
      [.deq, .enq 1, .enq 2, .enq 3, .rsz 1, .rsz 4, .pk, .snap, .elemAt 0, .clr]).capacity :=
  C10_count_invariant 2 false ⟨[0, 0], -1, -1, 0, 2, false⟩
    [.deq, .enq 1, .enq 2, .enq 3, .rsz 1, .rsz 4, .pk, .snap, .elemAt 0, .clr] rfl
